import Mathlib

/-!
# exiftool2json: the streaming translator of `main.go`

A shallow embedding of `streamTags` and `tagsHandler`.

What the program takes from its libraries is modelled at the interface the
program uses:

* `encoding/xml`: the decoder is the list of outcomes of its successive
  `Token()` calls; a start element carries what `DecodeElement` yields when it
  is called on that element (the decoded `Table`, or a failure together with
  the part of the element that was read before the failure).
* `net/http`: a `ResponseWriter` is the log of the calls made on it, in order.
* `encoding/json`: `Encoder.Encode` writes the compact encoding of the value
  followed by a newline character.
* the request context: the client goes away once it has received a given
  number of Results (or never).

The calls `Kill` and `Wait` on the external process write nothing to the
response and are left out. The field `Type` of `Tag` and `JSONTag` is named
`Type_`, `Type` being reserved. A write on the `ResponseWriter` is recorded whether
or not its error would be ignored; the one write whose error the program looks
at, that of the encoder, can fail.
-/

namespace Exiftool2json

/-! ## Data model (`main.go` lines 14-41) -/

/-- The `Desc` struct: one localized description of a tag. -/
structure Desc where
  Lang : String
  Value : String
deriving DecidableEq, Repr

/-- The `Tag` struct: one Entry of a Record. -/
structure Tag where
  ID : String
  Name : String
  Type_ : String
  Writable : Bool
  Group : String
  Desc : List Desc
deriving DecidableEq, Repr

/-- The `Table` struct: one Record. -/
structure Table where
  Name : String
  Tags : List Tag
deriving DecidableEq, Repr

/-- A Go `map[string]string`, kept as an association list with distinct keys. -/
abbrev StrMap := List (String × String)

/-- The `JSONTag` struct: one Result. -/
structure JSONTag where
  Writable : Bool
  Path : String
  Group : String
  Description : StrMap
  Type_ : String
deriving DecidableEq, Repr

/-! ## Go maps -/

/-- The assignment `m[k] = v`: an existing key keeps its place and takes the new
value, a new key is added. -/
def mapSet : StrMap → String → String → StrMap
  | [], k, v => [(k, v)]
  | (k', v') :: m, k, v => if k' = k then (k, v) :: m else (k', v') :: mapSet m k v

/-- The lookup `m[k]` with its presence flag. -/
def mapGet : StrMap → String → Option String
  | [], _ => none
  | (k', v') :: m, k => if k' = k then some v' else mapGet m k

/-- The keys of a map. -/
def mapKeys (m : StrMap) : List String := m.map Prod.fst

/-- Lines 96-99: `descMap := make(map[string]string)` followed by
`for _, desc := range tag.Desc { descMap[desc.Lang] = desc.Value }`,
started from the map `m`. -/
def descLoop : List Desc → StrMap → StrMap
  | [], m => m
  | desc :: rest, m => descLoop rest (mapSet m desc.Lang desc.Value)

/-- Lines 96-99 for one tag. -/
def buildDescMap (descs : List Desc) : StrMap := descLoop descs []

/-! ## `encoding/json` -/

/-- One hexadecimal digit, lower case. -/
def hexDigit (n : Nat) : Char :=
  match n % 16 with
  | 0 => '0' | 1 => '1' | 2 => '2' | 3 => '3' | 4 => '4' | 5 => '5' | 6 => '6' | 7 => '7'
  | 8 => '8' | 9 => '9' | 10 => 'a' | 11 => 'b' | 12 => 'c' | 13 => 'd' | 14 => 'e' | _ => 'f'

/-- The four hexadecimal digits of a code below 65536, after `\u`. -/
def uEscape (n : Nat) : List Char :=
  [Char.ofNat 92, 'u', hexDigit (n / 4096), hexDigit (n / 256), hexDigit (n / 16), hexDigit n]

/-- How `encoding/json` writes one character inside a string literal, with the
encoder's default HTML escaping: the quote (34) and the backslash (92) take a
backslash, the control characters take their short form (backspace, form
feed, newline, carriage return, tab) or their `\u00XX` form, and `<`, `>`,
`&`, U+2028 and U+2029 take the `\uXXXX` form. -/
def escapeChar (c : Char) : List Char :=
  let n := c.toNat
  if n = 34 ∨ n = 92 then [Char.ofNat 92, c]
  else if n = 8 then [Char.ofNat 92, 'b']
  else if n = 12 then [Char.ofNat 92, 'f']
  else if n = 10 then [Char.ofNat 92, 'n']
  else if n = 13 then [Char.ofNat 92, 'r']
  else if n = 9 then [Char.ofNat 92, 't']
  else if n < 32 ∨ n = 60 ∨ n = 62 ∨ n = 38 ∨ n = 8232 ∨ n = 8233 then uEscape n
  else [c]

/-- The escaped characters of a string. -/
def escapeChars : List Char → List Char
  | [] => []
  | c :: cs => escapeChar c ++ escapeChars cs

/-- The JSON string literal of a Go string. -/
def jsonString (s : String) : String :=
  "\"" ++ String.mk (escapeChars s.data) ++ "\""

/-- The JSON literal of a Go bool. -/
def jsonBool (b : Bool) : String := if b then "true" else "false"

/-- Insertion of a key-value pair before the first pair with a larger key. -/
def insertByKey (p : String × String) : StrMap → StrMap
  | [] => [p]
  | q :: m => if q.1 < p.1 then q :: insertByKey p m else p :: q :: m

/-- The pairs of a map in the order `encoding/json` writes them: sorted by key. -/
def sortByKey : StrMap → StrMap
  | [] => []
  | p :: m => insertByKey p (sortByKey m)

/-- The members of a JSON object, from sorted pairs. -/
def jsonMembers : StrMap → String
  | [] => ""
  | [(k, v)] => jsonString k ++ ":" ++ jsonString v
  | (k, v) :: p :: m => jsonString k ++ ":" ++ jsonString v ++ "," ++ jsonMembers (p :: m)

/-- The JSON object of a non-nil `map[string]string`. -/
def jsonMap (m : StrMap) : String :=
  "\x7b" ++ jsonMembers (sortByKey m) ++ "\x7d"

/-- The compact JSON encoding of a `JSONTag`, `json.Marshal`, with the field
names of the struct tags of lines 36-40 in declaration order. -/
def marshal (v : JSONTag) : String :=
  "\x7b\"writable\":" ++ jsonBool v.Writable ++
  ",\"path\":" ++ jsonString v.Path ++
  ",\"group\":" ++ jsonString v.Group ++
  ",\"description\":" ++ jsonMap v.Description ++
  ",\"type\":" ++ jsonString v.Type_ ++ "\x7d"

/-! ## `net/http` -/

/-- One call on the `http.ResponseWriter`. `encode v` is the write that
`encoder.Encode(v)` makes on it. -/
inductive Call where
  | setHeader (key value : String)
  | writeHeader (code : Nat)
  | write (data : String)
  | encode (v : JSONTag)
  | flush
deriving DecidableEq, Repr

/-- The bytes a call adds to the response body. `Encoder.Encode` writes the
encoding followed by a newline character. -/
def Call.bytes : Call → String
  | .write data => data
  | .encode v => marshal v ++ "\n"
  | _ => ""

/-- The response body written by a sequence of calls. -/
def body : List Call → String
  | [] => ""
  | c :: cs => c.bytes ++ body cs

/-- The Results written by a sequence of calls. -/
def results : List Call → List JSONTag
  | [] => []
  | .encode v :: cs => v :: results cs
  | _ :: cs => results cs

/-- The status line of the response: the code of the first `WriteHeader`. -/
def status : List Call → Option Nat
  | [] => none
  | .writeHeader code :: _ => some code
  | _ :: cs => status cs

/-- The `http.ResponseWriter` handed to the handler: the calls made on it so
far, whether it is an `http.Flusher`, and whether a write of the encoder fails:
`encodeFail = some (k, msg)` makes the `Encode` called when `k` Results are
written return the error `msg`. -/
structure ResponseWriter where
  calls : List Call
  isFlusher : Bool
  encodeFail : Option (Nat × String)
deriving Repr

/-- One more call on the writer. -/
def ResponseWriter.call (w : ResponseWriter) (c : Call) : ResponseWriter :=
  { w with calls := w.calls ++ [c] }

/-- The `*http.Request`: the two query values and the client's behaviour,
`cancelAfter = some n` closing `r.Context().Done()` once `n` Results are
written. -/
structure Request where
  table : String
  tag : String
  cancelAfter : Option Nat
deriving Repr

/-- Whether `<-r.Context().Done()` is ready when the calls `calls` are made. -/
def Request.done (r : Request) (calls : List Call) : Bool :=
  match r.cancelAfter with
  | none => false
  | some n => decide (n ≤ (results calls).length)

/-- The call `http.Error(w, msg, code)`: it sets two headers, writes the
status and prints the message and a newline character to the body. -/
def httpError (w : ResponseWriter) (msg : String) (code : Nat) : ResponseWriter :=
  (((w.call (.setHeader "Content-Type" "text/plain; charset=utf-8")).call
    (.setHeader "X-Content-Type-Options" "nosniff")).call (.writeHeader code)).call
    (.write (msg ++ "\n"))

/-! ## `encoding/xml` and `os/exec` -/

/-- What `decoder.DecodeElement(&table, &se)` yields on a start element: the
Record, or an error `cause` after the part `seen` of the Record was read. -/
inductive Decoded where
  | ok (table : Table)
  | failed (cause : String) (seen : Table)
deriving DecidableEq, Repr

/-- An `xml.Token`. -/
inductive Token where
  | StartElement (Local : String) (decode : Decoded)
  | EndElement (Local : String)
  | CharData (data : String)
  | Comment
  | ProcInst
  | Directive
deriving DecidableEq, Repr

/-- The outcome of one `decoder.Token()` call before the end of the input:
a token, or an error other than `io.EOF`. -/
inductive Event where
  | tok (t : Token)
  | err (cause : String)
deriving DecidableEq, Repr

/-- The external command `exiftool -listx`: the errors of `StdoutPipe` and
`Start`, and what the decoder reads from its standard output. -/
structure Cmd where
  pipeErr : Option String
  startErr : Option String
  stdout : List Event
deriving Repr

/-- The errors `streamTags` returns. -/
inductive Err where
  | pipe (cause : String)
  | start (cause : String)
  | noStream
  | clientClosed
  | readXML (cause : String)
  | decodeTable (cause : String)
  | encodeJSON (cause : String)
deriving DecidableEq, Repr

/-- The message `err.Error()` of an error of `streamTags`. -/
def Err.Error : Err → String
  | .pipe cause => "failed to create stdout pipe: " ++ cause
  | .start cause => "failed to start exiftool: " ++ cause
  | .noStream => "streaming not supported"
  | .clientClosed => "client closed connection"
  | .readXML cause => "error reading XML: " ++ cause
  | .decodeTable cause => "error decoding table: " ++ cause
  | .encodeJSON cause => "error encoding JSON: " ++ cause

/-! ## `streamTags` (lines 43-126) -/

/-- Lines 101-107: the Result of the tag `tag` of the table `table`. -/
def mkJSONTag (table : Table) (tag : Tag) : JSONTag :=
  { Writable := tag.Writable
    Path := table.Name ++ ":" ++ tag.Name
    Group := table.Name
    Description := buildDescMap tag.Desc
    Type_ := tag.Type_ }

/-- The variables of the read loop: the writer and the flag `first`. -/
structure State where
  w : ResponseWriter
  first : Bool
deriving Repr

/-- The call `encoder.Encode(jsonTag)`: its error, if the writer fails now. -/
def encodeErr (w : ResponseWriter) : Option String :=
  match w.encodeFail with
  | none => none
  | some (k, msg) => if k = (results w.calls).length then some msg else none

/-- Lines 92-119: the loop over the tags of a decoded table. -/
def tagLoop (tagName : String) (table : Table) : List Tag → State → State × Option Err
  | [], s => (s, none)
  | tag :: rest, s =>
    if tag.Name ≠ tagName ∧ tagName ≠ "" then
      tagLoop tagName table rest s
    else
      let jsonTag := mkJSONTag table tag
      let s1 : State :=
        if ¬ s.first then { s with w := s.w.call (.write ",") } else { s with first := false }
      match encodeErr s1.w with
      | some cause => (s1, some (.encodeJSON cause))
      | none =>
        tagLoop tagName table rest { s1 with w := (s1.w.call (.encode jsonTag)).call .flush }

/-- Lines 67-125: the read loop, and the closing marker after it. -/
def readLoop (r : Request) (tableName tagName : String) :
    List Event → State → State × Option Err
  | [], s =>
    if r.done s.w.calls then (s, some .clientClosed)
    else ({ s with w := (s.w.call (.write "]\x7d")).call .flush }, none)
  | ev :: rest, s =>
    if r.done s.w.calls then (s, some .clientClosed)
    else
      match ev with
      | .err cause => (s, some (.readXML cause))
      | .tok (.StartElement name dec) =>
        if name = "table" then
          match dec with
          | .failed cause _ => (s, some (.decodeTable cause))
          | .ok table =>
            if table.Name ≠ tableName ∧ tableName ≠ "" then
              readLoop r tableName tagName rest s
            else
              match tagLoop tagName table table.Tags s with
              | (s1, some e) => (s1, some e)
              | (s1, none) => readLoop r tableName tagName rest s1
        else readLoop r tableName tagName rest s
      | .tok _ => readLoop r tableName tagName rest s

/-- The function `streamTags`: the writer after the call and the error returned. -/
def streamTags (cmd : Cmd) (w : ResponseWriter) (r : Request) (tableName tagName : String) :
    ResponseWriter × Option Err :=
  match cmd.pipeErr with
  | some cause => (w, some (.pipe cause))
  | none =>
    match cmd.startErr with
    | some cause => (w, some (.start cause))
    | none =>
      let w1 := ((w.call (.setHeader "Content-Type" "application/json")).call
        (.writeHeader 200)).call (.write "\x7b\"tags\": [")
      if ¬ w1.isFlusher then (w1, some .noStream)
      else
        let out := readLoop r tableName tagName cmd.stdout { w := w1, first := true }
        (out.1.w, out.2)

/-- The function `tagsHandler` (lines 128-145): the writer after the call and
the lines printed on the standard output. -/
def tagsHandler (cmd : Cmd) (w : ResponseWriter) (r : Request) : ResponseWriter × List String :=
  let tableName := r.table
  let tagName := r.tag
  match streamTags cmd w r tableName tagName with
  | (w1, some err) =>
    let printed := if err.Error = "client closed connection" then ["Client closed connection"] else []
    (httpError w1 err.Error 500, printed)
  | (w1, none) => (w1, [])

/-! ## Documents and what the specification expects of a run -/

/-- A `decoder.Token()` outcome free of malformed markup: a token, whose
element decodes when it is a `table` start element. -/
def Event.valid : Event → Bool
  | .err _ => false
  | .tok (.StartElement name (.failed _ _)) => decide (name ≠ "table")
  | .tok _ => true

/-- A well-formed input document: no outcome of the decoder is an error. -/
def WellFormed (doc : List Event) : Prop := doc.all Event.valid = true

instance WellFormed.decidable (doc : List Event) : Decidable (WellFormed doc) :=
  inferInstanceAs (Decidable (doc.all Event.valid = true))

/-- The Records of a document, in stream order. -/
def tables : List Event → List Table
  | [] => []
  | .tok (.StartElement name (.ok t)) :: rest =>
    if name = "table" then t :: tables rest else tables rest
  | _ :: rest => tables rest

/-- The Entries of a list of Records, each with its Record, in document order. -/
def entries : List Table → List (Table × Tag)
  | [] => []
  | t :: ts => t.Tags.map (fun e => (t, e)) ++ entries ts

/-- A filter passes a name when the filter is empty or is exactly the name. -/
def passes (filter name : String) : Bool := decide (filter = "" ∨ filter = name)

/-- An Entry qualifies when its Record's name passes the table filter and its
own name passes the tag filter. -/
def qualifies (tableName tagName : String) (p : Table × Tag) : Bool :=
  passes tableName p.1.Name && passes tagName p.2.Name

/-- The Results of the qualifying Entries of a document, in document order. -/
def expected (tableName tagName : String) (doc : List Event) : List JSONTag :=
  ((entries (tables doc)).filter (qualifies tableName tagName)).map (fun p => mkJSONTag p.1 p.2)

/-- The calls that write the Results `vs`: a comma before each one but the
first of the response, the encoder's write, and a flush. -/
def frame : Bool → List JSONTag → List Call
  | _, [] => []
  | first, v :: vs =>
    (if first then [] else [Call.write ","]) ++ [Call.encode v, Call.flush] ++ frame false vs

/-- The loop state after the Results `vs` are written from the state `s`. -/
def advance (s : State) (vs : List JSONTag) : State :=
  { w := { calls := s.w.calls ++ frame s.first vs
           isFlusher := s.w.isFlusher
           encodeFail := s.w.encodeFail }
    first := s.first && vs.isEmpty }

/-- Strings joined by single commas. -/
def joinComma : List String → String
  | [] => ""
  | [a] => a
  | a :: b :: rest => a ++ "," ++ joinComma (b :: rest)

/-- A writer on which nothing is written yet, that can flush and whose writes
succeed. -/
def newWriter : ResponseWriter := { calls := [], isFlusher := true, encodeFail := none }

/-- The external command that starts and prints the document `doc`. -/
def exiftool (doc : List Event) : Cmd := { pipeErr := none, startErr := none, stdout := doc }

/-- A request with the given query values whose client stays connected. -/
def request (tableName tagName : String) : Request :=
  { table := tableName, tag := tagName, cancelAfter := none }

/-- The three calls `streamTags` makes before it reads the document. -/
def opening : List Call :=
  [.setHeader "Content-Type" "application/json", .writeHeader 200, .write "\x7b\"tags\": ["]

/-- The Records read before the malformation of a document, the Record inside
which the markup becomes malformed included with the part of it that was
read. -/
def seenBefore : List Event → List Table
  | [] => []
  | .err _ :: _ => []
  | .tok (.StartElement name (.ok t)) :: rest =>
    if name = "table" then t :: seenBefore rest else seenBefore rest
  | .tok (.StartElement name (.failed _ seen)) :: rest =>
    if name = "table" then [seen] else seenBefore rest
  | .tok _ :: rest => seenBefore rest

/-- A request whose client goes away once `n` Results are written. -/
def requestUntil (tableName tagName : String) (n : Nat) : Request :=
  { table := tableName, tag := tagName, cancelAfter := some n }

/-- The state in which `streamTags` enters the read loop. -/
def start (w : ResponseWriter) : State :=
  { w := { calls := w.calls ++ opening, isFlusher := w.isFlusher, encodeFail := w.encodeFail }
    first := true }

/-- A writer on which nothing is written yet and that cannot flush. -/
def plainWriter : ResponseWriter := { calls := [], isFlusher := false, encodeFail := none }

/-- The specification's projection of an Entry, with its Record, to a Result:
the Entry's mutable flag, the path `<group>:<entry-name>`, the Record's name
as group label, the Entry's type label, and a mapping from language code to
description text whose keys are the language codes of the Entry's
descriptions, each once, each holding the text of the last description in
that language. -/
def IsProjection (p : Table × Tag) (v : JSONTag) : Prop :=
  v.Writable = p.2.Writable ∧
  v.Path = p.1.Name ++ ":" ++ p.2.Name ∧
  v.Group = p.1.Name ∧
  v.Type_ = p.2.Type_ ∧
  (mapKeys v.Description).Nodup ∧
  (∀ k, k ∈ mapKeys v.Description ↔ ∃ d ∈ p.2.Desc, d.Lang = k) ∧
  (∀ k, mapGet v.Description k =
    (p.2.Desc.reverse.find? (fun d => decide (d.Lang = k))).map Desc.Value)

/-! ## Example documents -/

/-- The Entry `Make` of the specification's example. -/
def tagMake : Tag :=
  { ID := "271", Name := "Make", Type_ := "string", Writable := true, Group := "Camera"
    Desc := [{ Lang := "en", Value := "Manufacturer" }] }

/-- An Entry with two descriptions in the same language. -/
def tagModel : Tag :=
  { ID := "272", Name := "Model", Type_ := "string", Writable := false, Group := "Camera"
    Desc := [{ Lang := "en", Value := "Model" }, { Lang := "en", Value := "Camera Model Name" }] }

/-- A third Entry. -/
def tagWidth : Tag :=
  { ID := "256", Name := "ImageWidth", Type_ := "int32u", Writable := true, Group := "Image"
    Desc := [{ Lang := "en", Value := "Image Width" }, { Lang := "de", Value := "Bildbreite" }] }

/-- The start of a well-formed `table` element. -/
def tableElem (t : Table) : Event := .tok (.StartElement "table" (.ok t))

/-- The specification's example: one Record `EXIF` with the Entry `Make`. -/
def docExif : List Event := [tableElem { Name := "EXIF", Tags := [tagMake] }]

/-- A document as `exiftool -listx` prints it: a root element around
Records whose names are near misses of `EXIF`. -/
def docNear : List Event :=
  [.tok .ProcInst, .tok (.StartElement "taginfo" (.failed "unused" { Name := "", Tags := [] })),
   .tok (.CharData "\n"),
   tableElem { Name := "EXIF", Tags := [tagMake, tagModel] }, .tok (.CharData "\n"),
   tableElem { Name := "exif", Tags := [tagMake] },
   tableElem { Name := "EXI", Tags := [tagModel] },
   tableElem { Name := "EXIF2", Tags := [tagWidth] },
   tableElem { Name := "EXIF", Tags := [tagWidth] },
   .tok (.EndElement "taginfo")]

/-- A Record whose markup becomes malformed after its Entry `Make`. -/
def docCut : List Event :=
  [.tok (.StartElement "table" (.failed "XML syntax error" { Name := "EXIF", Tags := [tagMake] }))]

/-- Two Records, then a Record whose markup becomes malformed after its Entry
`Make`, then more of the document. -/
def docBroken : List Event :=
  [tableElem { Name := "EXIF", Tags := [tagMake, tagModel] },
   tableElem { Name := "GPS", Tags := [tagWidth] }] ++
  .tok (.StartElement "table" (.failed "XML syntax error" { Name := "IPTC", Tags := [tagMake] })) ::
  [tableElem { Name := "XMP", Tags := [tagModel] }]

/-! ## Lemmas on the model -/

theorem results_append (a b : List Call) : results (a ++ b) = results a ++ results b := by
  induction a with
  | nil => rfl
  | cons c cs ih => cases c <;> simp [results, ih]

theorem results_frame (first : Bool) (vs : List JSONTag) : results (frame first vs) = vs := by
  induction vs generalizing first with
  | nil => rfl
  | cons v vs ih => cases first <;> simp [frame, results, ih]

theorem frame_append (first : Bool) (a b : List JSONTag) :
    frame first (a ++ b) = frame first a ++ frame (first && a.isEmpty) b := by
  induction a generalizing first with
  | nil => simp [frame]
  | cons v vs ih => simp [frame, ih]

theorem advance_nil (s : State) : advance s [] = s := by
  cases s with
  | mk w first => cases w; simp [advance, frame]

theorem advance_advance (s : State) (a b : List JSONTag) :
    advance (advance s a) b = advance s (a ++ b) := by
  simp only [advance, frame_append, List.append_assoc, Bool.and_assoc]
  cases a <;> simp

theorem advance_encodeFail (s : State) (vs : List JSONTag) :
    (advance s vs).w.encodeFail = s.w.encodeFail := rfl

theorem tables_append (a b : List Event) : tables (a ++ b) = tables a ++ tables b := by
  induction a with
  | nil => rfl
  | cons ev rest ih =>
    rcases ev with ⟨t⟩ | c
    · cases t with
      | StartElement name dec =>
        cases dec with
        | ok t => by_cases h : name = "table" <;> simp [tables, h, ih]
        | failed c seen => simp [tables, ih]
      | _ => simp [tables, ih]
    · simp [tables, ih]

theorem entries_append (a b : List Table) : entries (a ++ b) = entries a ++ entries b := by
  induction a with
  | nil => rfl
  | cons t ts ih => simp [entries, ih]

theorem expected_append (tableName tagName : String) (a b : List Event) :
    expected tableName tagName (a ++ b) =
      expected tableName tagName a ++ expected tableName tagName b := by
  simp [expected, tables_append, entries_append]

theorem expected_cons (tableName tagName : String) (ev : Event) (rest : List Event) :
    expected tableName tagName (ev :: rest) =
      expected tableName tagName [ev] ++ expected tableName tagName rest :=
  expected_append tableName tagName [ev] rest

theorem encodeErr_none (w : ResponseWriter) (h : w.encodeFail = none) : encodeErr w = none := by
  simp [encodeErr, h]

theorem passes_false_iff (filter name : String) :
    passes filter name = false ↔ (name ≠ filter ∧ filter ≠ "") := by
  simp only [passes, decide_eq_false_iff_not, not_or]
  constructor
  · rintro ⟨h1, h2⟩
    exact ⟨fun h => h2 h.symm, h1⟩
  · rintro ⟨h1, h2⟩
    exact ⟨h2, fun h => h1 h.symm⟩

theorem passes_true_iff (filter name : String) :
    passes filter name = true ↔ ¬ (name ≠ filter ∧ filter ≠ "") := by
  rw [← passes_false_iff]
  simp

/-- With a writer whose writes succeed, the loop over the tags of a table
writes the Results of the tags that pass the tag filter and returns no error. -/
theorem tagLoop_ok (tagName : String) (table : Table) (tags : List Tag) (s : State)
    (hw : s.w.encodeFail = none) :
    tagLoop tagName table tags s =
      (advance s ((tags.filter (fun e => passes tagName e.Name)).map (mkJSONTag table)), none) := by
  induction tags generalizing s with
  | nil => simp [tagLoop, advance_nil]
  | cons tag rest ih =>
    by_cases hskip : tag.Name ≠ tagName ∧ tagName ≠ ""
    · have hp : passes tagName tag.Name = false := (passes_false_iff _ _).2 hskip
      rw [tagLoop, if_pos hskip, ih s hw]
      simp [hp]
    · have hp : passes tagName tag.Name = true := (passes_true_iff _ _).2 hskip
      rw [tagLoop, if_neg hskip]
      have he : encodeErr (if ¬ s.first then { s with w := s.w.call (.write ",") }
          else { s with first := false }).w = none := by
        apply encodeErr_none
        cases hf : s.first <;> simp [ResponseWriter.call, hw]
      simp only [he]
      rw [ih]
      · have hadv : ({ (if ¬ s.first then { s with w := s.w.call (.write ",") }
            else { s with first := false }) with
            w := ((if ¬ s.first then { s with w := s.w.call (.write ",") }
              else { s with first := false }).w.call (.encode (mkJSONTag table tag))).call
                .flush } : State) = advance s [mkJSONTag table tag] := by
          cases hf : s.first <;> simp [advance, frame, ResponseWriter.call, hf]
        rw [hadv, advance_advance]
        simp [hp]
      · cases hf : s.first <;> simp [ResponseWriter.call, hw]

theorem expected_table (tableName tagName : String) (t : Table) :
    expected tableName tagName [.tok (.StartElement "table" (.ok t))] =
      if passes tableName t.Name then
        (t.Tags.filter (fun e => passes tagName e.Name)).map (mkJSONTag t)
      else [] := by
  by_cases h : passes tableName t.Name = true
  · simp [expected, tables, entries, List.filter_map, qualifies, h, Function.comp_def]
  · simp only [Bool.not_eq_true] at h
    simp [expected, tables, entries, List.filter_map, qualifies, h, Function.comp_def]

/-- One turn of the read loop on an outcome free of malformed markup, the
client connected and the writer working: the Results of the qualifying
Entries of that outcome are written and the loop goes on. -/
theorem readLoop_step (r : Request) (tableName tagName : String) (ev : Event)
    (rest : List Event) (s : State) (hd : r.done s.w.calls = false)
    (hw : s.w.encodeFail = none) (hv : ev.valid = true) :
    readLoop r tableName tagName (ev :: rest) s =
      readLoop r tableName tagName rest (advance s (expected tableName tagName [ev])) := by
  simp only [readLoop, hd, Bool.false_eq_true, if_false]
  rcases ev with ⟨t⟩ | c
  · cases t with
    | StartElement name dec =>
      by_cases hn : name = "table"
      · subst hn
        cases dec with
        | failed c seen => simp [Event.valid] at hv
        | ok table =>
          simp only [if_true]
          rw [expected_table]
          by_cases hskip : table.Name ≠ tableName ∧ tableName ≠ ""
          · rw [if_pos hskip, (passes_false_iff _ _).2 hskip]
            simp [advance_nil]
          · rw [if_neg hskip, (passes_true_iff _ _).2 hskip, tagLoop_ok _ _ _ _ hw]
            simp
      · have he : expected tableName tagName [Event.tok (Token.StartElement name dec)] = [] := by
          cases dec <;> simp [expected, tables, entries, hn]
        simp only [hn, if_false, he, advance_nil]
    | _ => simp [expected, tables, entries, advance_nil]
  · simp [Event.valid] at hv

theorem done_of_none (r : Request) (h : r.cancelAfter = none) (calls : List Call) :
    r.done calls = false := by
  simp [Request.done, h]

/-- The read loop on a well-formed stretch of the document, the client
connected and the writer working. -/
theorem readLoop_valid (r : Request) (tableName tagName : String) (pre rest : List Event)
    (s : State) (hr : r.cancelAfter = none) (hw : s.w.encodeFail = none)
    (hv : WellFormed pre) :
    readLoop r tableName tagName (pre ++ rest) s =
      readLoop r tableName tagName rest (advance s (expected tableName tagName pre)) := by
  induction pre generalizing s with
  | nil => simp [expected, tables, entries, advance_nil]
  | cons ev pre ih =>
    simp only [WellFormed, List.all_cons, Bool.and_eq_true] at hv
    rw [List.cons_append, readLoop_step r tableName tagName ev (pre ++ rest) s
      (done_of_none r hr _) hw hv.1, ih _ (by rw [advance_encodeFail]; exact hw) hv.2,
      advance_advance, ← expected_cons]

/-- The end of the input with the client connected: the closing marker. -/
theorem readLoop_nil (r : Request) (tableName tagName : String) (s : State)
    (hd : r.done s.w.calls = false) :
    readLoop r tableName tagName [] s =
      ({ s with w := (s.w.call (.write "]\x7d")).call .flush }, none) := by
  simp [readLoop, hd]

/-- Once the process is started and the writer can flush, `streamTags` is the
read loop after the three opening calls. -/
theorem streamTags_started (doc : List Event) (w : ResponseWriter) (r : Request)
    (tableName tagName : String) (hf : w.isFlusher = true) :
    streamTags (exiftool doc) w r tableName tagName =
      ((readLoop r tableName tagName doc (start w)).1.w,
       (readLoop r tableName tagName doc (start w)).2) := by
  simp [streamTags, exiftool, ResponseWriter.call, hf, opening, start]

/-- A complete run on a well-formed document, the process started, the client
connected and the writer working. -/
theorem streamTags_normal (doc : List Event) (tableName tagName : String)
    (hv : WellFormed doc) :
    streamTags (exiftool doc) newWriter (request tableName tagName) tableName tagName =
      ({ calls := opening ++ frame true (expected tableName tagName doc) ++
           [.write "]\x7d", .flush]
         isFlusher := true
         encodeFail := none }, none) := by
  have h := readLoop_valid (request tableName tagName) tableName tagName doc []
    (start newWriter) rfl rfl hv
  rw [List.append_nil] at h
  rw [streamTags_started _ _ _ _ _ rfl, h,
    readLoop_nil _ _ _ _ (done_of_none (request tableName tagName) rfl _)]
  simp [advance, ResponseWriter.call, start, newWriter]

theorem results_opening : results opening = [] := rfl

theorem mem_entries (ts : List Table) (t : Table) (e : Tag) :
    (t, e) ∈ entries ts ↔ t ∈ ts ∧ e ∈ t.Tags := by
  induction ts with
  | nil => simp [entries]
  | cons t' ts ih =>
    simp only [entries, List.mem_append, List.mem_map, Prod.mk.injEq, ih, List.mem_cons]
    constructor
    · rintro (⟨e', he', rfl, rfl⟩ | ⟨h1, h2⟩)
      · exact ⟨Or.inl rfl, he'⟩
      · exact ⟨Or.inr h1, h2⟩
    · rintro ⟨rfl | h1, h2⟩
      · exact Or.inl ⟨e, h2, rfl, rfl⟩
      · exact Or.inr ⟨h1, h2⟩

theorem body_append (a b : List Call) : body (a ++ b) = body a ++ body b := by
  induction a with
  | nil => simp [body]
  | cons c cs ih => simp [body, ih, String.append_assoc]

theorem body_frame_cons (first : Bool) (v : JSONTag) (vs : List JSONTag) :
    body (frame first (v :: vs)) =
      (if first then "" else ",") ++
        joinComma ((v :: vs).map (fun x => marshal x ++ "\n")) := by
  induction vs generalizing v first with
  | nil => cases first <;> simp [frame, body, Call.bytes, joinComma]
  | cons v' vs ih =>
    have h := ih false v'
    rw [frame, body_append, h]
    cases first <;> simp [body, Call.bytes, joinComma, String.append_assoc] <;>
      (rw [← String.append_assoc "\n" ","]; rfl)

theorem body_frame_true (vs : List JSONTag) :
    body (frame true vs) = joinComma (vs.map (fun x => marshal x ++ "\n")) := by
  cases vs with
  | nil => rfl
  | cons v vs => simp [body_frame_cons]

/-! ### The description map -/

theorem mapGet_mapSet (m : StrMap) (k v k' : String) :
    mapGet (mapSet m k v) k' = if k = k' then some v else mapGet m k' := by
  induction m with
  | nil => simp [mapSet, mapGet]
  | cons p m ih =>
    obtain ⟨a, b⟩ := p
    by_cases h : a = k
    · subst h
      by_cases h' : a = k' <;> simp [mapSet, mapGet, h']
    · by_cases h' : k = k'
      · subst h'
        simp [mapSet, mapGet, h, ih]
      · by_cases h2 : a = k'
        · subst h2
          simp [mapSet, mapGet, h, h']
        · simp [mapSet, mapGet, h, h', h2, ih]

theorem mapKeys_mapSet (m : StrMap) (k v : String) :
    mapKeys (mapSet m k v) = if k ∈ mapKeys m then mapKeys m else mapKeys m ++ [k] := by
  induction m with
  | nil => simp [mapSet, mapKeys]
  | cons p m ih =>
    obtain ⟨a, b⟩ := p
    simp only [mapKeys] at ih
    by_cases h : a = k
    · subst h
      simp [mapSet, mapKeys]
    · have h' : ¬ k = a := fun e => h e.symm
      by_cases hm : k ∈ List.map Prod.fst m
      · simp only [mapSet, mapKeys, h, if_false, List.map_cons, ih, hm, if_true, List.mem_cons,
          or_true]
      · simp only [mapSet, mapKeys, h, if_false, List.map_cons, ih, hm, List.mem_cons, h',
          or_self, List.cons_append]

theorem mem_mapKeys_iff (m : StrMap) (k : String) :
    k ∈ mapKeys m ↔ (mapGet m k).isSome = true := by
  induction m with
  | nil => simp [mapKeys, mapGet]
  | cons p m ih =>
    obtain ⟨a, b⟩ := p
    simp only [mapKeys] at ih
    by_cases h : a = k
    · simp [mapKeys, mapGet, h]
    · have h' : ¬ k = a := fun e => h e.symm
      simp [mapKeys, mapGet, h, h', ih]

theorem mapGet_descLoop (ds : List Desc) (m : StrMap) (k : String) :
    mapGet (descLoop ds m) k =
      ((ds.reverse.find? (fun d => decide (d.Lang = k))).map Desc.Value).or (mapGet m k) := by
  induction ds generalizing m with
  | nil => simp [descLoop]
  | cons d ds ih =>
    rw [descLoop, ih, mapGet_mapSet, List.reverse_cons, List.find?_append]
    cases hfind : List.find? (fun d => decide (d.Lang = k)) ds.reverse with
    | some d' => simp
    | none => by_cases h : d.Lang = k <;> simp [h]

theorem nodup_descLoop (ds : List Desc) (m : StrMap) (hm : (mapKeys m).Nodup) :
    (mapKeys (descLoop ds m)).Nodup := by
  induction ds generalizing m with
  | nil => simpa [descLoop] using hm
  | cons d ds ih =>
    rw [descLoop]
    apply ih
    rw [mapKeys_mapSet]
    by_cases h : d.Lang ∈ mapKeys m
    · simpa [h] using hm
    · simp only [h, if_false]
      exact List.Nodup.append hm (List.nodup_singleton _) (by simpa using h)

/-- The map built at lines 96-99 holds, for each language, the text of the last
description in that language. -/
theorem mapGet_buildDescMap (ds : List Desc) (k : String) :
    mapGet (buildDescMap ds) k =
      (ds.reverse.find? (fun d => decide (d.Lang = k))).map Desc.Value := by
  simp [buildDescMap, mapGet_descLoop, mapGet]

theorem mem_mapKeys_buildDescMap (ds : List Desc) (k : String) :
    k ∈ mapKeys (buildDescMap ds) ↔ ∃ d ∈ ds, d.Lang = k := by
  rw [mem_mapKeys_iff, mapGet_buildDescMap]
  simp only [Option.isSome_map', List.find?_isSome, List.mem_reverse, decide_eq_true_eq]

/-! ### Where the Results of any run come from -/

theorem tagLoop_results (tagName : String) (table : Table) (tags : List Tag) (s : State)
    (v : JSONTag) (hv : v ∈ results (tagLoop tagName table tags s).1.w.calls) :
    v ∈ results s.w.calls ∨ ∃ e ∈ tags, v = mkJSONTag table e := by
  induction tags generalizing s with
  | nil => exact Or.inl (by simpa [tagLoop] using hv)
  | cons tag rest ih =>
    rw [tagLoop] at hv
    by_cases hskip : tag.Name ≠ tagName ∧ tagName ≠ ""
    · rw [if_pos hskip] at hv
      rcases ih s hv with h | ⟨e, he, rfl⟩
      · exact Or.inl h
      · exact Or.inr ⟨e, List.mem_cons_of_mem _ he, rfl⟩
    · rw [if_neg hskip] at hv
      cases hf : s.first <;> simp only [hf, Bool.false_eq_true, not_false_eq_true, not_true_eq_false,
        if_true, if_false] at hv
      · cases he : encodeErr (s.w.call (.write ",")) with
        | some cause =>
          simp only [he] at hv
          exact Or.inl (by simpa [ResponseWriter.call, results_append, results] using hv)
        | none =>
          simp only [he] at hv
          rcases ih _ hv with h | ⟨e, he, rfl⟩
          · simp only [ResponseWriter.call, results_append, results, List.append_nil,
              List.mem_append, List.mem_singleton] at h
            rcases h with h | rfl
            · exact Or.inl h
            · exact Or.inr ⟨tag, List.mem_cons_self _ _, rfl⟩
          · exact Or.inr ⟨e, List.mem_cons_of_mem _ he, rfl⟩
      · cases he : encodeErr s.w with
        | some cause =>
          simp only [he] at hv
          exact Or.inl hv
        | none =>
          simp only [he] at hv
          rcases ih _ hv with h | ⟨e, he, rfl⟩
          · simp only [ResponseWriter.call, results_append, results, List.append_nil,
              List.mem_append, List.mem_singleton] at h
            rcases h with h | rfl
            · exact Or.inl h
            · exact Or.inr ⟨tag, List.mem_cons_self _ _, rfl⟩
          · exact Or.inr ⟨e, List.mem_cons_of_mem _ he, rfl⟩

theorem readLoop_results (r : Request) (tableName tagName : String) (doc : List Event)
    (s : State) (v : JSONTag)
    (hv : v ∈ results (readLoop r tableName tagName doc s).1.w.calls) :
    v ∈ results s.w.calls ∨ ∃ t ∈ tables doc, ∃ e ∈ t.Tags, v = mkJSONTag t e := by
  induction doc generalizing s with
  | nil =>
    simp only [readLoop] at hv
    cases hd : r.done s.w.calls <;> simp only [hd, Bool.false_eq_true, if_true, if_false] at hv
    · exact Or.inl (by simpa [ResponseWriter.call, results_append, results] using hv)
    · exact Or.inl hv
  | cons ev rest ih =>
    simp only [readLoop] at hv
    cases hd : r.done s.w.calls <;> simp only [hd, Bool.false_eq_true, if_true, if_false] at hv
    · rcases ev with ⟨t⟩ | c
      · cases t with
        | StartElement name dec =>
          by_cases hn : name = "table"
          · subst hn
            simp only [if_true] at hv
            cases dec with
            | failed c seen => exact Or.inl hv
            | ok table =>
              simp only at hv
              have hrest : ∀ s1 : State, v ∈ results (readLoop r tableName tagName rest s1).1.w.calls →
                  (v ∈ results s1.w.calls ∨ ∃ t ∈ tables (Event.tok (Token.StartElement "table"
                    (Decoded.ok table)) :: rest), ∃ e ∈ t.Tags, v = mkJSONTag t e) := by
                intro s1 h1
                rcases ih s1 h1 with h | ⟨t, ht, e, he, rfl⟩
                · exact Or.inl h
                · exact Or.inr ⟨t, by simp [tables, ht], e, he, rfl⟩
              by_cases hskip : table.Name ≠ tableName ∧ tableName ≠ ""
              · rw [if_pos hskip] at hv
                exact hrest s hv
              · rw [if_neg hskip] at hv
                have htl := tagLoop_results tagName table table.Tags s v
                rcases hout : tagLoop tagName table table.Tags s with ⟨s1, oe⟩
                rw [hout] at hv htl
                have hs1 : v ∈ results s1.w.calls ∨ ∃ t ∈ tables (Event.tok (Token.StartElement
                    "table" (Decoded.ok table)) :: rest), ∃ e ∈ t.Tags, v = mkJSONTag t e := by
                  cases oe with
                  | some e => exact Or.inl hv
                  | none => exact hrest s1 hv
                rcases hs1 with h | h
                · rcases htl h with h' | ⟨e, he, rfl⟩
                  · exact Or.inl h'
                  · exact Or.inr ⟨table, by simp [tables], e, he, rfl⟩
                · exact Or.inr h
          · simp only [hn, if_false] at hv
            rcases ih s hv with h | ⟨t, ht, e, he, rfl⟩
            · exact Or.inl h
            · refine Or.inr ⟨t, ?_, e, he, rfl⟩
              cases dec <;> simp [tables, hn, ht]
        | _ =>
          rcases ih s hv with h | ⟨t, ht, e, he, rfl⟩
          · exact Or.inl h
          · exact Or.inr ⟨t, by simp [tables, ht], e, he, rfl⟩
      · exact Or.inl hv
    · exact Or.inl hv

/-- Every Result a run of `streamTags` adds to the writer is the Result of an
Entry of a Record of the document. -/
theorem streamTags_results (cmd : Cmd) (w : ResponseWriter) (r : Request)
    (tableName tagName : String) (v : JSONTag)
    (hv : v ∈ results (streamTags cmd w r tableName tagName).1.calls) :
    v ∈ results w.calls ∨ ∃ t ∈ tables cmd.stdout, ∃ e ∈ t.Tags, v = mkJSONTag t e := by
  unfold streamTags at hv
  cases hp : cmd.pipeErr with
  | some c => rw [hp] at hv; exact Or.inl hv
  | none =>
    cases hs : cmd.startErr with
    | some c => rw [hp, hs] at hv; exact Or.inl hv
    | none =>
      simp only [hp, hs] at hv
      split at hv
      · exact Or.inl (by simpa [ResponseWriter.call, results_append, results] using hv)
      · rcases readLoop_results _ _ _ _ _ _ hv with h | h
        · exact Or.inl (by simpa [ResponseWriter.call, results_append, results] using h)
        · exact Or.inr h

theorem not_mem_frame (first : Bool) (vs : List JSONTag) :
    Call.write "]\x7d" ∉ frame first vs := by
  induction vs generalizing first with
  | nil => simp [frame]
  | cons v vs ih =>
    have h := ih false
    cases first <;> simp [frame, h]

theorem not_mem_opening_frame (first : Bool) (vs : List JSONTag) :
    Call.write "]\x7d" ∉ opening ++ frame first vs := by
  simp only [List.mem_append, not_or]
  exact ⟨by decide, not_mem_frame first vs⟩

theorem error_ne_clientClosed (e : Err) (h : e ≠ .clientClosed) :
    e.Error ≠ "client closed connection" := by
  intro heq
  have h2 := congrArg (fun s => s.data.head?) heq
  cases e <;> simp [Err.Error, String.data_append] at h2
  exact h rfl

/-- With the process started and a writer that cannot flush, `streamTags`
makes the three opening calls on the writer and returns the
transport-unsupported error, on every document and request. -/
theorem streamTags_no_flusher (doc : List Event) (w : ResponseWriter) (r : Request)
    (tableName tagName : String) (hf : w.isFlusher = false) :
    streamTags (exiftool doc) w r tableName tagName =
      ({ calls := w.calls ++ opening, isFlusher := w.isFlusher, encodeFail := w.encodeFail },
       some .noStream) := by
  simp [streamTags, exiftool, ResponseWriter.call, hf, opening]

/-- With both filters empty, the Results of a complete run are those the code
builds for the Entries of the document, in document order. -/
theorem streamTags_unfiltered (doc : List Event) (hv : WellFormed doc) :
    results (streamTags (exiftool doc) newWriter (request "" "") "" "").1.calls =
      (entries (tables doc)).map (fun p => mkJSONTag p.1 p.2) := by
  rw [streamTags_normal doc "" "" hv]
  simp only [results_append, results_frame, results_opening, List.nil_append]
  have hr : results [Call.write "]\x7d", Call.flush] = [] := rfl
  rw [hr, List.append_nil, expected]
  congr 1
  simp [qualifies, passes]

/-! ## The claims -/

/-- C1: on a well-formed document, with any two filters and the client
connected, `streamTags` returns no error and writes as many Results as there
are Entries whose Record's name passes the table filter and whose own name
passes the tag filter. -/
theorem C1_count_of_results (doc : List Event) (tableName tagName : String)
    (hv : WellFormed doc) :
    (streamTags (exiftool doc) newWriter (request tableName tagName) tableName tagName).2 = none ∧
    (results (streamTags (exiftool doc) newWriter (request tableName tagName)
        tableName tagName).1.calls).length =
      (entries (tables doc)).countP (fun p =>
        decide ((tableName = "" ∨ tableName = p.1.Name) ∧ (tagName = "" ∨ tagName = p.2.Name))) := by
  rw [streamTags_normal doc tableName tagName hv]
  refine ⟨rfl, ?_⟩
  simp only [results_append, results_frame, results_opening, List.nil_append]
  have hr : results [Call.write "]\x7d", Call.flush] = [] := rfl
  rw [hr, List.append_nil, expected, List.length_map, List.countP_eq_length_filter]
  congr 2
  funext p
  simp [qualifies, passes]

/-- Witness of C1 on a document with near-miss Record names. -/
theorem C1_count_of_results_witness :
    WellFormed docNear ∧
    (streamTags (exiftool docNear) newWriter (request "EXIF" "ImageWidth") "EXIF" "ImageWidth").2
      = none ∧
    (results (streamTags (exiftool docNear) newWriter (request "EXIF" "ImageWidth")
        "EXIF" "ImageWidth").1.calls).length =
      (entries (tables docNear)).countP (fun p =>
        decide (("EXIF" = "" ∨ "EXIF" = p.1.Name) ∧ ("ImageWidth" = "" ∨ "ImageWidth" = p.2.Name))) :=
  ⟨by decide, C1_count_of_results docNear "EXIF" "ImageWidth" (by decide)⟩

/-- C2: on a well-formed document, with both filters empty and the client
connected, the Results written match the Entries of the Records one for one,
in document order: there are as many Results as Entries, and the Result at
each position is the projection of the Entry at that position, with the
Entry's writable flag and type, the path made of the Record's name, a colon
and the Entry's name, the Record's name as group, and the description mapping
of the Entry's descriptions. None is dropped, duplicated or reordered. -/
theorem C2_all_entries_in_order (doc : List Event) (hv : WellFormed doc) :
    List.Forall₂
      (fun (p : Table × Tag) (v : JSONTag) =>
        v.Writable = p.2.Writable ∧
        v.Path = p.1.Name ++ ":" ++ p.2.Name ∧
        v.Group = p.1.Name ∧
        v.Type_ = p.2.Type_ ∧
        (mapKeys v.Description).Nodup ∧
        (∀ k, k ∈ mapKeys v.Description ↔ ∃ d ∈ p.2.Desc, d.Lang = k) ∧
        (∀ k, mapGet v.Description k =
          (p.2.Desc.reverse.find? (fun d => decide (d.Lang = k))).map Desc.Value))
      (entries (tables doc))
      (results (streamTags (exiftool doc) newWriter (request "" "") "" "").1.calls) ∧
    (results (streamTags (exiftool doc) newWriter (request "" "") "" "").1.calls).length =
      (entries (tables doc)).length := by
  have hres := streamTags_unfiltered doc hv
  have hall : List.Forall₂ IsProjection (entries (tables doc))
      (results (streamTags (exiftool doc) newWriter (request "" "") "" "").1.calls) := by
    rw [hres, List.forall₂_map_right_iff, List.forall₂_same]
    intro p _
    exact ⟨rfl, rfl, rfl, rfl, nodup_descLoop p.2.Desc [] (by simp [mapKeys]),
      fun k => mem_mapKeys_buildDescMap p.2.Desc k, fun k => mapGet_buildDescMap p.2.Desc k⟩
  exact ⟨hall, hall.length_eq.symm⟩

/-- Witness of C2 on a document of five Records inside a root element: the six
Results, in the order of the six Entries. -/
theorem C2_all_entries_in_order_witness :
    WellFormed docNear ∧
    (results (streamTags (exiftool docNear) newWriter (request "" "") "" "").1.calls).map
        (fun v => (v.Path, v.Group, v.Writable, v.Type_)) =
      [("EXIF:Make", "EXIF", true, "string"), ("EXIF:Model", "EXIF", false, "string"),
       ("exif:Make", "exif", true, "string"), ("EXI:Model", "EXI", false, "string"),
       ("EXIF2:ImageWidth", "EXIF2", true, "int32u"),
       ("EXIF:ImageWidth", "EXIF", true, "int32u")] ∧
    (List.Forall₂
      (fun (p : Table × Tag) (v : JSONTag) =>
        v.Writable = p.2.Writable ∧
        v.Path = p.1.Name ++ ":" ++ p.2.Name ∧
        v.Group = p.1.Name ∧
        v.Type_ = p.2.Type_ ∧
        (mapKeys v.Description).Nodup ∧
        (∀ k, k ∈ mapKeys v.Description ↔ ∃ d ∈ p.2.Desc, d.Lang = k) ∧
        (∀ k, mapGet v.Description k =
          (p.2.Desc.reverse.find? (fun d => decide (d.Lang = k))).map Desc.Value))
      (entries (tables docNear))
      (results (streamTags (exiftool docNear) newWriter (request "" "") "" "").1.calls) ∧
    (results (streamTags (exiftool docNear) newWriter (request "" "") "" "").1.calls).length =
      (entries (tables docNear)).length) :=
  ⟨by decide, by decide, C2_all_entries_in_order docNear (by decide)⟩

/-- C3: on a well-formed document, with the table filter a non-empty string
`X`, the tag filter empty and the client connected, the Results written are
those of the Entries of the Records named exactly `X`, in document order; the
Result of an Entry is written if and only if its Record is named `X`; and
every Result written has group `X`. -/
theorem C3_table_filter_exact (doc : List Event) (X : String) (hX : X ≠ "")
    (hv : WellFormed doc) :
    results (streamTags (exiftool doc) newWriter (request X "") X "").1.calls =
      ((entries (tables doc)).filter (fun p => decide (p.1.Name = X))).map
        (fun p => mkJSONTag p.1 p.2) ∧
    (∀ t ∈ tables doc, ∀ e ∈ t.Tags,
      (mkJSONTag t e ∈ results (streamTags (exiftool doc) newWriter (request X "") X "").1.calls
        ↔ t.Name = X)) ∧
    (∀ v ∈ results (streamTags (exiftool doc) newWriter (request X "") X "").1.calls,
      v.Group = X) := by
  have hres : results (streamTags (exiftool doc) newWriter (request X "") X "").1.calls =
      ((entries (tables doc)).filter (fun p => decide (p.1.Name = X))).map
        (fun p => mkJSONTag p.1 p.2) := by
    rw [streamTags_normal doc X "" hv]
    simp only [results_append, results_frame, results_opening, List.nil_append]
    have hr : results [Call.write "]\x7d", Call.flush] = [] := rfl
    rw [hr, List.append_nil, expected]
    congr 2
    funext p
    simp only [qualifies, passes, hX, false_or, true_or, decide_True, Bool.and_true]
    exact decide_eq_decide.2 ⟨fun h => h.symm, fun h => h.symm⟩
  have hgroup : ∀ v ∈ results
      (streamTags (exiftool doc) newWriter (request X "") X "").1.calls, v.Group = X := by
    intro v hvmem
    rw [hres] at hvmem
    simp only [List.mem_map, List.mem_filter, decide_eq_true_eq] at hvmem
    obtain ⟨p, ⟨_, hp⟩, rfl⟩ := hvmem
    exact hp
  refine ⟨hres, ?_, hgroup⟩
  intro t ht e he
  constructor
  · intro hmem
    exact hgroup _ hmem
  · intro hname
    rw [hres]
    simp only [List.mem_map, List.mem_filter, decide_eq_true_eq]
    exact ⟨(t, e), ⟨(mem_entries _ _ _).2 ⟨ht, he⟩, hname⟩, rfl⟩

/-- Witness of C3: the filter `EXIF` on Records named `EXIF`, `exif`, `EXI`
and `EXIF2`. -/
theorem C3_table_filter_exact_witness :
    "EXIF" ≠ "" ∧ WellFormed docNear ∧
    (results (streamTags (exiftool docNear) newWriter (request "EXIF" "") "EXIF" "").1.calls =
      ((entries (tables docNear)).filter (fun p => decide (p.1.Name = "EXIF"))).map
        (fun p => mkJSONTag p.1 p.2) ∧
    (∀ t ∈ tables docNear, ∀ e ∈ t.Tags,
      (mkJSONTag t e ∈
          results (streamTags (exiftool docNear) newWriter (request "EXIF" "") "EXIF" "").1.calls
        ↔ t.Name = "EXIF")) ∧
    (∀ v ∈ results (streamTags (exiftool docNear) newWriter (request "EXIF" "") "EXIF" "").1.calls,
      v.Group = "EXIF")) :=
  ⟨by decide, by decide, C3_table_filter_exact docNear "EXIF" (by decide) (by decide)⟩

/-- C4, as stated, fails on the specification's example: the body is not the
claimed string, since the encoder ends the Result with a newline character. -/
theorem C4_body_example_counterexample :
    body (streamTags (exiftool docExif) newWriter (request "EXIF" "") "EXIF" "").1.calls ≠
      "\x7b\"tags\": [\x7b\"writable\":true,\"path\":\"EXIF:Make\",\"group\":\"EXIF\",\"description\":\x7b\"en\":\"Manufacturer\"\x7d,\"type\":\"string\"\x7d]\x7d" := by
  decide

/-- C4, amended: on a well-formed document with the client connected,
`streamTags` returns no error and the body is the opening marker, then the
compact JSON encoding of each qualifying Result followed by a newline
character, with a single comma between consecutive Results and nothing before
the first, then the closing marker. -/
theorem C4_body_framing (doc : List Event) (tableName tagName : String)
    (hv : WellFormed doc) :
    (streamTags (exiftool doc) newWriter (request tableName tagName) tableName tagName).2 = none ∧
    body (streamTags (exiftool doc) newWriter (request tableName tagName)
        tableName tagName).1.calls =
      "\x7b\"tags\": [" ++
        joinComma ((expected tableName tagName doc).map (fun v => marshal v ++ "\n")) ++
        "]\x7d" := by
  rw [streamTags_normal doc tableName tagName hv]
  refine ⟨rfl, ?_⟩
  simp only [body_append, body_frame_true]
  have ho : body opening = "\x7b\"tags\": [" := by decide
  have hc : body [Call.write "]\x7d", Call.flush] = "]\x7d" := by decide
  rw [ho, hc]

/-- Witness of C4 amended: the specification's example, whose body has a newline
character between the Result and the closing marker. -/
theorem C4_body_framing_witness :
    WellFormed docExif ∧
    ((streamTags (exiftool docExif) newWriter (request "EXIF" "") "EXIF" "").2 = none ∧
     body (streamTags (exiftool docExif) newWriter (request "EXIF" "") "EXIF" "").1.calls =
      "\x7b\"tags\": [" ++
        joinComma ((expected "EXIF" "" docExif).map (fun v => marshal v ++ "\n")) ++
        "]\x7d") ∧
    "\x7b\"tags\": [" ++
        joinComma ((expected "EXIF" "" docExif).map (fun v => marshal v ++ "\n")) ++ "]\x7d" =
      "\x7b\"tags\": [\x7b\"writable\":true,\"path\":\"EXIF:Make\",\"group\":\"EXIF\",\"description\":\x7b\"en\":\"Manufacturer\"\x7d,\"type\":\"string\"\x7d\n]\x7d" :=
  ⟨by decide, C4_body_framing docExif "EXIF" "" (by decide), by decide⟩

/-- C5: every Result written by a run of `streamTags` comes from an Entry whose
description elements give its description mapping: the keys are the language
codes of the Entry's descriptions, each once, each key holds the text of the
last description in that language, and two descriptions both in `en` give the
single key `en` with the second text. -/
theorem C5_description_last_wins (cmd : Cmd) (canFlush : Bool) (fail : Option (Nat × String))
    (r : Request) (tableName tagName : String) (v : JSONTag)
    (hv : v ∈ results (streamTags cmd { calls := [], isFlusher := canFlush, encodeFail := fail }
      r tableName tagName).1.calls) :
    ∃ t ∈ tables cmd.stdout, ∃ e ∈ t.Tags, v = mkJSONTag t e ∧
      (∀ k, k ∈ mapKeys v.Description ↔ ∃ d ∈ e.Desc, d.Lang = k) ∧
      (mapKeys v.Description).Nodup ∧
      (∀ k, mapGet v.Description k =
        (e.Desc.reverse.find? (fun d => decide (d.Lang = k))).map Desc.Value) ∧
      (∀ a b, e.Desc = [{ Lang := "en", Value := a }, { Lang := "en", Value := b }] →
        v.Description = [("en", b)]) := by
  rcases streamTags_results _ _ _ _ _ _ hv with h | ⟨t, ht, e, he, rfl⟩
  · simp [results] at h
  · refine ⟨t, ht, e, he, rfl, ?_, ?_, ?_, ?_⟩
    · intro k
      exact mem_mapKeys_buildDescMap e.Desc k
    · exact nodup_descLoop e.Desc [] (by simp [mapKeys])
    · intro k
      exact mapGet_buildDescMap e.Desc k
    · intro a b hab
      simp [mkJSONTag, hab, buildDescMap, descLoop, mapSet]

/-- Witness of C5: the Result of the Entry `Model`, which has two descriptions
in `en`. -/
theorem C5_description_last_wins_witness :
    (mkJSONTag { Name := "EXIF", Tags := [tagMake, tagModel] } tagModel).Description =
      [("en", "Camera Model Name")] ∧
    ∃ t ∈ tables (exiftool docNear).stdout, ∃ e ∈ t.Tags,
      mkJSONTag { Name := "EXIF", Tags := [tagMake, tagModel] } tagModel = mkJSONTag t e ∧
      (∀ k, k ∈ mapKeys (mkJSONTag { Name := "EXIF", Tags := [tagMake, tagModel] }
        tagModel).Description ↔ ∃ d ∈ e.Desc, d.Lang = k) ∧
      (mapKeys (mkJSONTag { Name := "EXIF", Tags := [tagMake, tagModel] }
        tagModel).Description).Nodup ∧
      (∀ k, mapGet (mkJSONTag { Name := "EXIF", Tags := [tagMake, tagModel] }
          tagModel).Description k =
        (e.Desc.reverse.find? (fun d => decide (d.Lang = k))).map Desc.Value) ∧
      (∀ a b, e.Desc = [{ Lang := "en", Value := a }, { Lang := "en", Value := b }] →
        (mkJSONTag { Name := "EXIF", Tags := [tagMake, tagModel] } tagModel).Description =
          [("en", b)]) :=
  ⟨by decide,
   C5_description_last_wins (exiftool docNear) true none (request "" "") "" ""
    (mkJSONTag { Name := "EXIF", Tags := [tagMake, tagModel] } tagModel) (by decide)⟩

/-- C6: every Result written by a run of `streamTags` comes from one Entry `e`
of one Record `t`: its path is `t.Name`, a colon and `e.Name`, its group is
`t.Name`, its writable flag and its type are those of `e`, and the Result is
determined by `t.Name` and `e` alone. -/
theorem C6_result_projection (cmd : Cmd) (canFlush : Bool) (fail : Option (Nat × String))
    (r : Request) (tableName tagName : String) (v : JSONTag)
    (hv : v ∈ results (streamTags cmd { calls := [], isFlusher := canFlush, encodeFail := fail }
      r tableName tagName).1.calls) :
    ∃ t ∈ tables cmd.stdout, ∃ e ∈ t.Tags,
      v.Path = t.Name ++ ":" ++ e.Name ∧ v.Group = t.Name ∧
      v.Path = v.Group ++ ":" ++ e.Name ∧
      v.Writable = e.Writable ∧ v.Type_ = e.Type_ ∧
      v.Description = buildDescMap e.Desc ∧
      (∀ others : List Tag, v = mkJSONTag { Name := t.Name, Tags := others } e) := by
  rcases streamTags_results _ _ _ _ _ _ hv with h | ⟨t, ht, e, he, rfl⟩
  · simp [results] at h
  · exact ⟨t, ht, e, he, rfl, rfl, rfl, rfl, rfl, rfl, fun _ => rfl⟩

/-- Witness of C6: the Result of the Entry `ImageWidth` of the second Record
named `EXIF`, with the tag filter `ImageWidth`. -/
theorem C6_result_projection_witness :
    ∃ t ∈ tables (exiftool docNear).stdout, ∃ e ∈ t.Tags,
      (mkJSONTag { Name := "EXIF", Tags := [tagWidth] } tagWidth).Path =
        t.Name ++ ":" ++ e.Name ∧
      (mkJSONTag { Name := "EXIF", Tags := [tagWidth] } tagWidth).Group = t.Name ∧
      (mkJSONTag { Name := "EXIF", Tags := [tagWidth] } tagWidth).Path =
        (mkJSONTag { Name := "EXIF", Tags := [tagWidth] } tagWidth).Group ++ ":" ++ e.Name ∧
      (mkJSONTag { Name := "EXIF", Tags := [tagWidth] } tagWidth).Writable = e.Writable ∧
      (mkJSONTag { Name := "EXIF", Tags := [tagWidth] } tagWidth).Type_ = e.Type_ ∧
      (mkJSONTag { Name := "EXIF", Tags := [tagWidth] } tagWidth).Description =
        buildDescMap e.Desc ∧
      (∀ others : List Tag, mkJSONTag { Name := "EXIF", Tags := [tagWidth] } tagWidth =
        mkJSONTag { Name := t.Name, Tags := others } e) :=
  C6_result_projection (exiftool docNear) true none (request "" "ImageWidth") "" "ImageWidth"
    (mkJSONTag { Name := "EXIF", Tags := [tagWidth] } tagWidth) (by decide)

/-- C7, as stated, fails when the markup becomes malformed inside a Record:
the Entry `Make` read before the malformation gives no Result. -/
theorem C7_malformed_inside_record_counterexample :
    ((entries (seenBefore docCut)).filter (qualifies "" "")).length = 1 ∧
    (streamTags (exiftool docCut) newWriter (request "" "") "" "").2 =
      some (.decodeTable "XML syntax error") ∧
    ¬ ((results (streamTags (exiftool docCut) newWriter (request "" "") "" "").1.calls).length =
      ((entries (seenBefore docCut)).filter (qualifies "" "")).length) := by
  decide

/-- C7, amended: when the markup becomes malformed after a well-formed stretch
`pre` of the document, at the top level or inside a Record, `streamTags`
writes the opening marker and the Results of the qualifying Entries of the
Records of `pre`, those decoded whole before the malformation, and no Result
of the Record inside which the malformation lies; it does not write the
closing marker and returns a parse-failure error. -/
theorem C7_malformed_after_records (pre post : List Event) (bad : Event)
    (tableName tagName : String) (hpre : WellFormed pre) (hbad : bad.valid = false) :
    (streamTags (exiftool (pre ++ bad :: post)) newWriter (request tableName tagName)
        tableName tagName).1.calls = opening ++ frame true (expected tableName tagName pre) ∧
    results (streamTags (exiftool (pre ++ bad :: post)) newWriter (request tableName tagName)
        tableName tagName).1.calls = expected tableName tagName pre ∧
    body (streamTags (exiftool (pre ++ bad :: post)) newWriter (request tableName tagName)
        tableName tagName).1.calls =
      "\x7b\"tags\": [" ++
        joinComma ((expected tableName tagName pre).map (fun v => marshal v ++ "\n")) ∧
    Call.write "]\x7d" ∉ (streamTags (exiftool (pre ++ bad :: post)) newWriter
        (request tableName tagName) tableName tagName).1.calls ∧
    ((∃ cause, bad = .err cause ∧
        (streamTags (exiftool (pre ++ bad :: post)) newWriter (request tableName tagName)
          tableName tagName).2 = some (.readXML cause)) ∨
     (∃ cause seen, bad = .tok (.StartElement "table" (.failed cause seen)) ∧
        (streamTags (exiftool (pre ++ bad :: post)) newWriter (request tableName tagName)
          tableName tagName).2 = some (.decodeTable cause))) := by
  have h := readLoop_valid (request tableName tagName) tableName tagName pre (bad :: post)
    (start newWriter) rfl rfl hpre
  have hd : (request tableName tagName).done
      (advance (start newWriter) (expected tableName tagName pre)).w.calls = false :=
    done_of_none _ rfl _
  have hcalls : (advance (start newWriter) (expected tableName tagName pre)).w.calls =
      opening ++ frame true (expected tableName tagName pre) := by
    simp [advance, start, newWriter]
  have hout : ∀ e, readLoop (request tableName tagName) tableName tagName (bad :: post)
        (advance (start newWriter) (expected tableName tagName pre)) =
        (advance (start newWriter) (expected tableName tagName pre), some e) →
      (streamTags (exiftool (pre ++ bad :: post)) newWriter (request tableName tagName)
        tableName tagName) = ({ calls := opening ++ frame true (expected tableName tagName pre)
                                isFlusher := true, encodeFail := none }, some e) := by
    intro e he
    rw [streamTags_started _ _ _ _ _ rfl, h, he]
    simp [advance, start, newWriter]
  have hmain : ∀ e, (streamTags (exiftool (pre ++ bad :: post)) newWriter
        (request tableName tagName) tableName tagName) =
        ({ calls := opening ++ frame true (expected tableName tagName pre)
           isFlusher := true, encodeFail := none }, some e) →
      (streamTags (exiftool (pre ++ bad :: post)) newWriter (request tableName tagName)
        tableName tagName).1.calls = opening ++ frame true (expected tableName tagName pre) ∧
      results (streamTags (exiftool (pre ++ bad :: post)) newWriter (request tableName tagName)
        tableName tagName).1.calls = expected tableName tagName pre ∧
      body (streamTags (exiftool (pre ++ bad :: post)) newWriter (request tableName tagName)
        tableName tagName).1.calls =
        "\x7b\"tags\": [" ++
          joinComma ((expected tableName tagName pre).map (fun v => marshal v ++ "\n")) ∧
      Call.write "]\x7d" ∉ (streamTags (exiftool (pre ++ bad :: post)) newWriter
        (request tableName tagName) tableName tagName).1.calls := by
    intro e he
    rw [he]
    refine ⟨rfl, ?_, ?_, ?_⟩
    · simp [results_append, results_frame, results_opening]
    · have ho : body opening = "\x7b\"tags\": [" := by decide
      simp only [body_append, body_frame_true, ho]
    · exact not_mem_opening_frame _ _
  rcases bad with ⟨t⟩ | cause
  · cases t with
    | StartElement name dec =>
      cases dec with
      | ok table => simp [Event.valid] at hbad
      | failed cause seen =>
        have hn : name = "table" := by simpa [Event.valid] using hbad
        subst hn
        have he := hout (.decodeTable cause) (by simp [readLoop, hd])
        obtain ⟨h1, h2, h3, h4⟩ := hmain _ he
        exact ⟨h1, h2, h3, h4, Or.inr ⟨cause, seen, rfl, by rw [he]⟩⟩
    | _ => simp [Event.valid] at hbad
  · have he := hout (.readXML cause) (by simp [readLoop, hd])
    obtain ⟨h1, h2, h3, h4⟩ := hmain _ he
    exact ⟨h1, h2, h3, h4, Or.inl ⟨cause, rfl, by rw [he]⟩⟩

/-- Witness of C7 amended: two whole Records, then a Record cut after its first
Entry. -/
theorem C7_malformed_after_records_witness :
    WellFormed [tableElem { Name := "EXIF", Tags := [tagMake, tagModel] },
      tableElem { Name := "GPS", Tags := [tagWidth] }] ∧
    (Event.tok (.StartElement "table"
      (.failed "XML syntax error" { Name := "IPTC", Tags := [tagMake] }))).valid = false ∧
    (results (streamTags (exiftool docBroken) newWriter (request "" "") "" "").1.calls).length = 3 ∧
    Call.write "]\x7d" ∉ (streamTags (exiftool docBroken) newWriter (request "" "") "" "").1.calls :=
  ⟨by decide, by decide,
   by
    have h := (C7_malformed_after_records
      [tableElem { Name := "EXIF", Tags := [tagMake, tagModel] },
        tableElem { Name := "GPS", Tags := [tagWidth] }]
      [tableElem { Name := "XMP", Tags := [tagModel] }]
      (.tok (.StartElement "table"
        (.failed "XML syntax error" { Name := "IPTC", Tags := [tagMake] })))
      "" "" (by decide) (by decide)).2.1
    exact (congrArg List.length h).trans (by decide),
   (C7_malformed_after_records
      [tableElem { Name := "EXIF", Tags := [tagMake, tagModel] },
        tableElem { Name := "GPS", Tags := [tagWidth] }]
      [tableElem { Name := "XMP", Tags := [tagModel] }]
      (.tok (.StartElement "table"
        (.failed "XML syntax error" { Name := "IPTC", Tags := [tagMake] })))
      "" "" (by decide) (by decide)).2.2.2.1⟩

/-- C9, as stated, fails: after `streamTags` has returned the
client-disconnected error, `tagsHandler` makes four more calls on the writer,
among them `WriteHeader(500)` and a write of the message to the body. -/
theorem C9_handler_writes_after_disconnect_counterexample :
    (streamTags (exiftool docExif) newWriter (requestUntil "EXIF" "" 0) "EXIF" "").2 =
      some .clientClosed ∧
    ¬ ((tagsHandler (exiftool docExif) newWriter (requestUntil "EXIF" "" 0)).1.calls =
      (streamTags (exiftool docExif) newWriter (requestUntil "EXIF" "" 0) "EXIF" "").1.calls) ∧
    Call.writeHeader 500 ∈
      (tagsHandler (exiftool docExif) newWriter (requestUntil "EXIF" "" 0)).1.calls ∧
    body (tagsHandler (exiftool docExif) newWriter (requestUntil "EXIF" "" 0)).1.calls =
      "\x7b\"tags\": [client closed connection\n" := by
  decide

/-- C9, amended: whatever error `streamTags` returns, the client-disconnected
one included, `tagsHandler` then calls `http.Error` with the message and the
status 500, which makes four calls on the writer: two headers,
`WriteHeader(500)` and a write of the message and a newline character. The
client-disconnected error differs from the others only in the line printed
on the standard output, which is printed for it and for no other error. -/
theorem C9_handler_reports_every_error (cmd : Cmd) (w : ResponseWriter) (r : Request) (e : Err)
    (he : (streamTags cmd w r r.table r.tag).2 = some e) :
    (tagsHandler cmd w r).1.calls =
      (streamTags cmd w r r.table r.tag).1.calls ++
        [.setHeader "Content-Type" "text/plain; charset=utf-8",
         .setHeader "X-Content-Type-Options" "nosniff", .writeHeader 500,
         .write (e.Error ++ "\n")] ∧
    ((tagsHandler cmd w r).2 = ["Client closed connection"] ↔ e = .clientClosed) ∧
    (e ≠ .clientClosed → (tagsHandler cmd w r).2 = []) := by
  rcases hout : streamTags cmd w r r.table r.tag with ⟨w1, oe⟩
  rw [hout] at he
  simp only at he
  subst he
  by_cases hc : e = .clientClosed
  · subst hc
    simp [tagsHandler, hout, httpError, ResponseWriter.call, Err.Error]
  · have hne := error_ne_clientClosed e hc
    simp [tagsHandler, hout, httpError, ResponseWriter.call, hne, hc]

/-- Witness of C9 amended: the client is gone before the first token is read. -/
theorem C9_handler_reports_every_error_witness :
    (streamTags (exiftool docExif) newWriter (requestUntil "EXIF" "" 0)
      (requestUntil "EXIF" "" 0).table (requestUntil "EXIF" "" 0).tag).2 = some .clientClosed ∧
    status (tagsHandler (exiftool docExif) newWriter (requestUntil "EXIF" "" 0)).1.calls =
      some 200 ∧
    ((tagsHandler (exiftool docExif) newWriter (requestUntil "EXIF" "" 0)).1.calls =
      (streamTags (exiftool docExif) newWriter (requestUntil "EXIF" "" 0)
        (requestUntil "EXIF" "" 0).table (requestUntil "EXIF" "" 0).tag).1.calls ++
        [.setHeader "Content-Type" "text/plain; charset=utf-8",
         .setHeader "X-Content-Type-Options" "nosniff", .writeHeader 500,
         .write (Err.clientClosed.Error ++ "\n")] ∧
    ((tagsHandler (exiftool docExif) newWriter (requestUntil "EXIF" "" 0)).2 =
      ["Client closed connection"] ↔ Err.clientClosed = .clientClosed) ∧
    (Err.clientClosed ≠ .clientClosed →
      (tagsHandler (exiftool docExif) newWriter (requestUntil "EXIF" "" 0)).2 = [])) :=
  ⟨by decide, by decide,
   C9_handler_reports_every_error (exiftool docExif) newWriter (requestUntil "EXIF" "" 0)
    .clientClosed (by decide)⟩

/-- C10: the code at a writer that cannot flush. `streamTags` returns the
transport-unsupported error, but only after it has written the `Content-Type`
header, the status 200 and the opening marker: the response is not untouched
when the error is returned. -/
theorem C10_no_flusher_writes_before_error :
    (streamTags (exiftool docExif) plainWriter (request "" "") "" "").2 = some .noStream ∧
    (streamTags (exiftool docExif) plainWriter (request "" "") "" "").1.calls =
      [.setHeader "Content-Type" "application/json", .writeHeader 200,
        .write "\x7b\"tags\": ["] ∧
    (streamTags (exiftool docExif) plainWriter (request "" "") "" "").1.calls ≠ [] ∧
    status (streamTags (exiftool docExif) plainWriter (request "" "") "" "").1.calls = some 200 ∧
    body (streamTags (exiftool docExif) plainWriter (request "" "") "" "").1.calls =
      "\x7b\"tags\": [" := by
  decide

end Exiftool2json
